import Mathlib

/-!
Verification of the module orchestration and messaging subsystem of the
allpix-gaas repository, shallowly embedded in Lean.

The embedding follows `src/core/module/ModuleManager.cpp`,
`src/core/messenger/Messenger.hpp` and `src/exec/allpix.cpp`.  Parts of the
repository that are only declared but not implemented under the sources at
hand (the Messenger implementation, `delegates.h`, `Configuration.hpp`,
`GeometryManager`, `ModuleIdentifier.hpp`, `log.h`) are modelled from the
specification; every such definition is marked in its doc comment.
-/

namespace Allpix

/-- Error taxonomy of the loading and dispatch paths.  The source throws
`allpix::DynamicLibraryError`, `allpix::AmbiguousInstantiationError` and
`allpix::InvalidModuleStateException` (ModuleManager.cpp); the specification
calls the last one `InvalidModuleBinding`.  `invalidDetector` models the
failure of the geometry lookup for an unknown detector name. -/
inductive LoadError where
  | dynamicLibrary (moduleName : String)
  | ambiguousInstantiation (moduleName : String)
  | invalidModuleState (message : String)
  | invalidDetector (detectorName : String)
deriving DecidableEq, Repr

/-- Identifier of a module instance, from the spec data model (the header
defining it is not among the sources): name, target detector name (empty for
unique modules) and priority.  ModuleManager.cpp constructs these as
`ModuleIdentifier(moduleName, det->getName(), p)`.  Per the code's own
convention (ModuleManager.cpp lines 143-144, where the new instance replaces
the old one when its stored value is smaller and the comment calls it the one
whose "priority is higher"), a smaller stored `priority` value means higher
priority. -/
structure ModuleIdentifier where
  name : String
  target : String
  priority : Nat
deriving DecidableEq, Repr

/-- Key for uniqueness of a module instance.  Modelled from the spec:
"Key for uniqueness is `(name, target)`"; the ordering of the
`std::map<ModuleIdentifier, _>` in ModuleManager.hpp is not in the sources. -/
def ModuleIdentifier.key (id : ModuleIdentifier) : String × String :=
  (id.name, id.target)

/-- The identifier `a` has strictly higher priority than `b` (same convention
as the source: a smaller stored value wins, cf. ModuleManager.cpp line 144). -/
def ModuleIdentifier.higherPriority (a b : ModuleIdentifier) : Prop :=
  a.priority < b.priority

/-- A detector (a "target"): a named sub-entity with a type category.
Modelled from the spec glossary; the geometry classes are not in the
sources. -/
structure Detector where
  name : String
  type : String
deriving DecidableEq, Repr

/-- A module instance as the registry sees it: it reports the detector it was
constructed with (`Module::getDetector()` in the source tree's callers;
`none` for unique modules). -/
structure Module where
  detector : Option Detector
deriving DecidableEq, Repr

/-- One produced `(identifier, module)` pair of a `mod_list`
(ModuleManager.cpp line 127). -/
abbrev Entry := ModuleIdentifier × Module

/-- The ordered registry of live instances: `modules_` together with the
lookup maps `id_to_module_` / `module_to_id_`, modelled as one association
list in insertion order (the maps are derived views of it). -/
abbrev Registry := List Entry

/-- Test whether an entry occupies the `(name, target)` key `k`. -/
def keyIs (k : String × String) (e : Entry) : Bool :=
  e.1.key == k

/-- Reconciliation of one produced pair with the registry: the body of the
loop at ModuleManager.cpp lines 135-161.  Look up the `(name, target)` key;
on a hit, replace the incumbent when its stored priority value is greater
(the new instance has higher priority), fail with `AmbiguousInstantiation` on
an equal value, and silently ignore the new instance otherwise; on a miss
append at the back of the registry. -/
def addModule (reg : Registry) (id : ModuleIdentifier) (mod : Module) :
    Except LoadError Registry :=
  match reg.find? (keyIs id.key) with
  | none => .ok (reg ++ [(id, mod)])
  | some e =>
      if e.1.priority > id.priority then
        .ok (reg.eraseP (keyIs id.key) ++ [(id, mod)])
      else if e.1.priority = id.priority then
        .error (.ambiguousInstantiation id.name)
      else
        .ok reg

/-- The reconciliation loop of `ModuleManager::load` over all produced
`(identifier, module)` pairs (every configuration section contributes its
`mod_list` in order; the loop is identical for each pair). -/
def loadPairs : List Entry → Registry → Except LoadError Registry
  | [], reg => .ok reg
  | e :: ps, reg =>
      match addModule reg e.1 e.2 with
      | .error err => .error err
      | .ok reg' => loadPairs ps reg'

/-- Entries of the registry sitting at key `k`, in registry order. -/
def atKey (k : String × String) (reg : Registry) : Registry :=
  reg.filter (keyIs k)

theorem find?_eq_head?_filter (p : Entry → Bool) (l : List Entry) :
    l.find? p = (l.filter p).head? := by
  induction l with
  | nil => rfl
  | cons a t ih =>
      by_cases h : p a
      · rw [List.find?_cons_of_pos _ h, List.filter_cons_of_pos h]
        rfl
      · simp only [Bool.not_eq_true] at h
        rw [List.find?_cons_of_neg _ (by simp [h]), List.filter_cons_of_neg (by simp [h]), ih]

theorem eraseP_filter_self (p : Entry → Bool) (l : List Entry) :
    (l.filter p).eraseP p = (l.eraseP p).filter p := by
  induction l with
  | nil => rfl
  | cons a t ih =>
      by_cases h : p a
      · simp [List.filter, List.eraseP, h]
      · simp only [Bool.not_eq_true] at h
        simp [List.filter, List.eraseP, h, ih]

theorem filter_eraseP_of_disjoint {p q : Entry → Bool}
    (hpq : ∀ e, q e = true → p e = false) (l : List Entry) :
    (l.eraseP q).filter p = l.filter p := by
  induction l with
  | nil => rfl
  | cons a t ih =>
      by_cases h : q a
      · simp [List.eraseP, h, List.filter, hpq a h]
      · simp only [Bool.not_eq_true] at h
        by_cases h2 : p a
        · simp [List.eraseP, h, List.filter, h2, ih]
        · simp only [Bool.not_eq_true] at h2
          simp [List.eraseP, h, List.filter, h2, ih]

/-- Reconciling an entry of a different key leaves the view at key `k`
unchanged. -/
theorem atKey_addModule_ne {k : String × String} {id : ModuleIdentifier}
    {mod : Module} {reg reg' : Registry} (hne : id.key ≠ k)
    (h : addModule reg id mod = .ok reg') :
    atKey k reg' = atKey k reg := by
  have hd : ∀ e : Entry, keyIs id.key e = true → keyIs k e = false := by
    intro e he
    simp only [keyIs, beq_iff_eq] at he ⊢
    simp [he, hne]
  have hsing : ∀ m : Module, ¬ keyIs k ((id, m) : Entry) = true := by
    intro m
    simp only [keyIs, beq_iff_eq]
    simpa using hne
  cases hf : reg.find? (keyIs id.key) with
  | none =>
      simp only [addModule, hf, Except.ok.injEq] at h
      subst h
      simp [atKey, List.filter_append, List.filter_cons_of_neg (hsing mod)]
  | some e =>
      simp only [addModule, hf] at h
      by_cases hgt : e.1.priority > id.priority
      · rw [if_pos hgt] at h
        simp only [Except.ok.injEq] at h
        subst h
        simp [atKey, List.filter_append, List.filter_cons_of_neg (hsing mod),
          filter_eraseP_of_disjoint hd]
      · rw [if_neg hgt] at h
        by_cases heq : e.1.priority = id.priority
        · rw [if_pos heq] at h
          exact absurd h (by simp)
        · rw [if_neg heq] at h
          simp only [Except.ok.injEq] at h
          subst h
          rfl

/-- Reconciling an entry of key `k` acts on the view at key `k` exactly as it
acts on a registry that consists of that view alone. -/
theorem atKey_addModule_eq {k : String × String} {id : ModuleIdentifier}
    {mod : Module} {reg : Registry} (hk : id.key = k) :
    (addModule reg id mod).map (atKey k) =
      addModule (atKey k reg) id mod := by
  subst hk
  have hfind : (atKey id.key reg).find? (keyIs id.key) =
      reg.find? (keyIs id.key) := by
    rw [find?_eq_head?_filter, find?_eq_head?_filter]
    simp [atKey, List.filter_filter]
  have hself : keyIs id.key ((id, mod) : Entry) = true := by
    simp [keyIs]
  cases hf : reg.find? (keyIs id.key) with
  | none =>
      simp only [addModule, hf, hfind.trans hf, Except.map]
      simp [atKey, List.filter_append, List.filter_cons_of_pos hself]
  | some e =>
      simp only [addModule, hf, hfind.trans hf]
      by_cases hgt : e.1.priority > id.priority
      · rw [if_pos hgt, if_pos hgt]
        simp only [Except.map]
        have : atKey id.key (reg.eraseP (keyIs id.key) ++ [(id, mod)]) =
            (atKey id.key reg).eraseP (keyIs id.key) ++ [(id, mod)] := by
          simp only [atKey, List.filter_append]
          rw [eraseP_filter_self]
          simp [List.filter_cons_of_pos hself]
        rw [this]
      · rw [if_neg hgt, if_neg hgt]
        by_cases heq : e.1.priority = id.priority
        · rw [if_pos heq, if_pos heq]
          rfl
        · rw [if_neg heq, if_neg heq]
          rfl

/-- Key locality of the reconciliation loop: on success, the view of the
final registry at any `(name, target)` key is obtained by running the very
same loop on the input entries of that key alone, starting from the view of
the initial registry. -/
theorem loadPairs_atKey (k : String × String) :
    ∀ (ps : List Entry) (reg reg' : Registry),
      loadPairs ps reg = .ok reg' →
      loadPairs (ps.filter (keyIs k)) (atKey k reg) = .ok (atKey k reg') := by
  intro ps
  induction ps with
  | nil =>
      intro reg reg' h
      simp only [loadPairs, Except.ok.injEq] at h
      subst h
      rfl
  | cons e t ih =>
      intro reg reg' h
      simp only [loadPairs] at h
      cases ha : addModule reg e.1 e.2 with
      | error err => rw [ha] at h; exact absurd h (by simp)
      | ok reg₁ =>
          rw [ha] at h
          by_cases hk : e.1.key = k
          · have : (e :: t).filter (keyIs k) = e :: t.filter (keyIs k) :=
              List.filter_cons_of_pos (by simp [keyIs, hk])
            rw [this]
            simp only [loadPairs]
            have hcomm := @atKey_addModule_eq k e.1 e.2 reg hk
            rw [ha] at hcomm
            simp only [Except.map] at hcomm
            rw [← hcomm]
            exact ih reg₁ reg' h
          · have : (e :: t).filter (keyIs k) = t.filter (keyIs k) :=
              List.filter_cons_of_neg (by simp [keyIs, hk])
            rw [this]
            rw [← atKey_addModule_ne hk ha]
            exact ih reg₁ reg' h

/-- The reconciliation loop can only fail with `AmbiguousInstantiation`. -/
theorem loadPairs_error_ambiguous :
    ∀ (ps : List Entry) (reg : Registry) (err : LoadError),
      loadPairs ps reg = .error err →
      ∃ n, err = .ambiguousInstantiation n := by
  intro ps
  induction ps with
  | nil => intro reg err h; simp [loadPairs] at h
  | cons e t ih =>
      intro reg err h
      simp only [loadPairs] at h
      cases ha : addModule reg e.1 e.2 with
      | error err' =>
          rw [ha] at h
          simp only [Except.error.injEq] at h
          subst h
          cases hf : reg.find? (keyIs e.1.key) with
          | none => simp only [addModule, hf] at ha; simp at ha
          | some e' =>
              simp only [addModule, hf] at ha
              by_cases hgt : e'.1.priority > e.1.priority
              · rw [if_pos hgt] at ha
                exact absurd ha (by simp)
              · rw [if_neg hgt] at ha
                by_cases heq : e'.1.priority = e.1.priority
                · rw [if_pos heq] at ha
                  simp only [Except.error.injEq] at ha
                  exact ⟨e.1.name, ha.symm⟩
                · rw [if_neg heq] at ha
                  exact absurd ha (by simp)
      | ok reg₁ =>
          rw [ha] at h
          exact ih reg₁ err h

theorem addModule_nil (e : Entry) : addModule [] e.1 e.2 = .ok [e] := rfl

theorem addModule_pair_found {k : String × String} {a b : Entry}
    (hak : a.1.key = k) (hbk : b.1.key = k) :
    ([a] : Registry).find? (keyIs b.1.key) = some a := by
  have : keyIs b.1.key a = true := by simp [keyIs, hak, hbk]
  simp [List.find?_cons_of_pos _ this]

/-- C1: for every sequence of configuration sections whose produced
instantiation list has exactly two entries at a `(name, target)` key, with
differing priorities, a completed `ModuleManager::load` leaves exactly one
instance at that key in the registry, namely the one of strictly higher
priority (the one with the smaller stored priority value, per the code's
convention); the other is evicted or discarded.  The registry's view at the
key is computed through the key-locality of the reconciliation loop. -/
theorem load_retains_higher_priority (pairs : List Entry) (k : String × String)
    (a b : Entry) (reg : Registry)
    (hab : pairs.filter (keyIs k) = [a, b])
    (hne : a.1.priority ≠ b.1.priority)
    (hok : loadPairs pairs [] = .ok reg) :
    (atKey k reg).length = 1 ∧
    (a.1.higherPriority b.1 → atKey k reg = [a]) ∧
    (b.1.higherPriority a.1 → atKey k reg = [b]) := by
  have ha : keyIs k a = true := by
    have : a ∈ pairs.filter (keyIs k) := by rw [hab]; simp
    exact (List.mem_filter.mp this).2
  have hb : keyIs k b = true := by
    have : b ∈ pairs.filter (keyIs k) := by rw [hab]; simp
    exact (List.mem_filter.mp this).2
  have hak : a.1.key = k := by simpa [keyIs] using ha
  have hbk : b.1.key = k := by simpa [keyIs] using hb
  have hloc := loadPairs_atKey k pairs [] reg hok
  rw [hab] at hloc
  have hfind := addModule_pair_found hak hbk
  rcases Nat.lt_trichotomy a.1.priority b.1.priority with hlt | heq | hgt
  · have step2 : addModule [a] b.1 b.2 = .ok [a] := by
      simp only [addModule, hfind]
      rw [if_neg (by omega), if_neg (by omega)]
    have : loadPairs [a, b] (atKey k ([] : Registry)) = .ok [a] := by
      simp only [atKey, List.filter_nil, loadPairs, addModule_nil, step2]
    rw [this] at hloc
    simp only [Except.ok.injEq] at hloc
    rw [← hloc]
    refine ⟨rfl, fun _ => rfl, fun hba => ?_⟩
    exact absurd hba (by simp only [ModuleIdentifier.higherPriority]; omega)
  · exact absurd heq hne
  · have hera : List.eraseP (keyIs b.1.key) [a] = [] := by
      have : keyIs b.1.key a = true := by simp [keyIs, hak, hbk]
      simp [List.eraseP_cons, this]
    have step2 : addModule [a] b.1 b.2 = .ok [b] := by
      simp only [addModule, hfind]
      rw [if_pos hgt, hera]
      rfl
    have : loadPairs [a, b] (atKey k ([] : Registry)) = .ok [b] := by
      simp only [atKey, List.filter_nil, loadPairs, addModule_nil, step2]
    rw [this] at hloc
    simp only [Except.ok.injEq] at hloc
    rw [← hloc]
    refine ⟨rfl, fun hab' => ?_, fun _ => rfl⟩
    exact absurd hab' (by simp only [ModuleIdentifier.higherPriority]; omega)

/-- Witness for C1 at a concrete input: a `name`-tier instance (stored
priority 1) and a `type`-tier instance (stored priority 2) at the same
`("B", "D1")` key; the higher-priority one survives. -/
theorem load_retains_higher_priority_witness :
    (atKey ("B", "D1")
        [((⟨"B", "D1", 1⟩ : ModuleIdentifier), Module.mk none)]).length = 1 ∧
    ((⟨"B", "D1", 1⟩ : ModuleIdentifier).higherPriority ⟨"B", "D1", 2⟩ →
      atKey ("B", "D1")
          [((⟨"B", "D1", 1⟩ : ModuleIdentifier), Module.mk none)] =
        [((⟨"B", "D1", 1⟩ : ModuleIdentifier), Module.mk none)]) ∧
    ((⟨"B", "D1", 2⟩ : ModuleIdentifier).higherPriority ⟨"B", "D1", 1⟩ →
      atKey ("B", "D1")
          [((⟨"B", "D1", 1⟩ : ModuleIdentifier), Module.mk none)] =
        [((⟨"B", "D1", 2⟩ : ModuleIdentifier),
           Module.mk (some ⟨"D1", "T"⟩))]) :=
  load_retains_higher_priority
    [((⟨"B", "D1", 1⟩ : ModuleIdentifier), Module.mk none),
     ((⟨"B", "D1", 2⟩ : ModuleIdentifier), Module.mk (some ⟨"D1", "T"⟩))]
    ("B", "D1")
    ((⟨"B", "D1", 1⟩ : ModuleIdentifier), Module.mk none)
    ((⟨"B", "D1", 2⟩ : ModuleIdentifier), Module.mk (some ⟨"D1", "T"⟩))
    [((⟨"B", "D1", 1⟩ : ModuleIdentifier), Module.mk none)]
    (by decide) (by decide) (by rfl)

/-- C2 (amended): if the produced instantiation list has exactly two entries
at a `(name, target)` key and their priorities are equal, the reconciliation
loop of `ModuleManager::load` fails with `AmbiguousInstantiation`. -/
theorem load_equal_priority_ambiguous (pairs : List Entry)
    (k : String × String) (a b : Entry)
    (hab : pairs.filter (keyIs k) = [a, b])
    (heq : a.1.priority = b.1.priority) :
    ∃ n, loadPairs pairs [] = .error (.ambiguousInstantiation n) := by
  have ha : keyIs k a = true := by
    have : a ∈ pairs.filter (keyIs k) := by rw [hab]; simp
    exact (List.mem_filter.mp this).2
  have hb : keyIs k b = true := by
    have : b ∈ pairs.filter (keyIs k) := by rw [hab]; simp
    exact (List.mem_filter.mp this).2
  have hak : a.1.key = k := by simpa [keyIs] using ha
  have hbk : b.1.key = k := by simpa [keyIs] using hb
  cases hres : loadPairs pairs [] with
  | ok reg =>
      exfalso
      have hloc := loadPairs_atKey k pairs [] reg hres
      rw [hab] at hloc
      have hfind := addModule_pair_found hak hbk
      have step2 : addModule [a] b.1 b.2 =
          .error (.ambiguousInstantiation b.1.name) := by
        simp only [addModule, hfind]
        rw [if_neg (by omega), if_pos heq]
      have : loadPairs [a, b] (atKey k ([] : Registry)) =
          .error (.ambiguousInstantiation b.1.name) := by
        simp only [atKey, List.filter_nil, loadPairs, addModule_nil, step2]
      rw [this] at hloc
      exact absurd hloc (by simp)
  | error err =>
      obtain ⟨n, hn⟩ := loadPairs_error_ambiguous pairs [] err hres
      exact ⟨n, by rw [hn]⟩

/-- Witness for the amended C2 at a concrete input: two priority-2 instances
at the same key make loading fail. -/
theorem load_equal_priority_ambiguous_witness :
    ∃ n, loadPairs
        [((⟨"B", "D1", 2⟩ : ModuleIdentifier), Module.mk none),
         ((⟨"B", "D1", 2⟩ : ModuleIdentifier), Module.mk (some ⟨"D1", "T"⟩))]
        [] = .error (.ambiguousInstantiation n) :=
  load_equal_priority_ambiguous
    [((⟨"B", "D1", 2⟩ : ModuleIdentifier), Module.mk none),
     ((⟨"B", "D1", 2⟩ : ModuleIdentifier), Module.mk (some ⟨"D1", "T"⟩))]
    ("B", "D1")
    ((⟨"B", "D1", 2⟩ : ModuleIdentifier), Module.mk none)
    ((⟨"B", "D1", 2⟩ : ModuleIdentifier), Module.mk (some ⟨"D1", "T"⟩))
    (by decide) (by decide)

/-- Counterexample to C2 as stated: here the second and third produced
instances share the key `("B", "D1")` and have equal priority 2, yet the
loop completes successfully — the incumbent at the key has the strictly
smaller stored value 1, so both duplicates are silently discarded by the
"priority is lower just ignore" branch and no `AmbiguousInstantiation` is
ever raised. -/
theorem load_equal_priority_counterexample :
    loadPairs
      [((⟨"B", "D1", 1⟩ : ModuleIdentifier), Module.mk none),
       ((⟨"B", "D1", 2⟩ : ModuleIdentifier), Module.mk none),
       ((⟨"B", "D1", 2⟩ : ModuleIdentifier), Module.mk (some ⟨"D1", "T"⟩))]
      [] =
    .ok [((⟨"B", "D1", 1⟩ : ModuleIdentifier), Module.mk none)] := by
  rfl

/-! ## Lifecycle execution -/

/-- A configuration section: the named key/value mapping produced by the
external parser.  Only the keys with orchestration-level meaning are kept:
the `name` and `type` arrays (ModuleManager.cpp lines 215, 234; `none` models
`conf.has(key) == false`) and integer-valued keys such as
`number_of_events`.  `get` with a default is modelled from the call
`global_config_.get<unsigned int>("number_of_events", 1u)`
(Configuration.hpp is not among the sources): the stored value when the key
is defined, the default otherwise. -/
structure Configuration where
  name : String
  nameKey : Option (List String) := none
  typeKey : Option (List String) := none
  intKeys : List (String × Nat) := []
deriving DecidableEq, Repr

/-- Lookup of an integer key with a default value. -/
def Configuration.get (conf : Configuration) (key : String) (dflt : Nat) :
    Nat :=
  (conf.intKeys.lookup key).getD dflt

/-- One lifecycle hook invocation, recorded as a trace event.  Module
instances are identified by opaque handles (the `Module*` pointers of
`modules_`). -/
inductive HookCall where
  | init (m : Nat)
  | run (event : Nat) (m : Nat)
  | finalize (m : Nat)
deriving DecidableEq, Repr

/-- The module manager as the lifecycle drivers see it: the ordered list of
live instances `modules_` and the global configuration section. -/
structure ModuleManager where
  modules : List Nat
  global_config : Configuration
deriving DecidableEq, Repr

/-- Number of events of the run phase:
`global_config_.get<unsigned int>("number_of_events", 1u)`
(ModuleManager.cpp line 38). -/
def ModuleManager.numberOfEvents (mm : ModuleManager) : Nat :=
  mm.global_config.get "number_of_events" 1

/-- Hook invocations of `ModuleManager::init` (lines 20-33): one `init` per
instance, in registry order. -/
def ModuleManager.initTrace (mm : ModuleManager) : List HookCall :=
  mm.modules.map HookCall.init

/-- The inner loop of `ModuleManager::run` for one event: each instance's
`run`, in registry order (lines 42-52). -/
def runEvent (modules : List Nat) (event : Nat) : List HookCall :=
  modules.map (HookCall.run event)

/-- The run-phase loops of `ModuleManager::run` (lines 36-54): events
`0, ..., n-1` in order, each iterating all instances. -/
def runEvents (modules : List Nat) (n : Nat) : List HookCall :=
  (List.range n).flatMap (runEvent modules)

/-- Hook invocations of `ModuleManager::run`. -/
def ModuleManager.runTrace (mm : ModuleManager) : List HookCall :=
  runEvents mm.modules mm.numberOfEvents

/-- Hook invocations of `ModuleManager::finalize` (lines 57-70). -/
def ModuleManager.finalizeTrace (mm : ModuleManager) : List HookCall :=
  mm.modules.map HookCall.finalize

/-- The full lifecycle of the driver (allpix.cpp lines 111-120:
`apx->load(); apx->init(); apx->run(); apx->finalize();`, the `AllPix`
object forwarding each phase to the module manager): all `init`, then all
events' `run`, then all `finalize`.  The trace records the error-free
execution; a thrown hook error aborts the remainder (see the log-section
model below). -/
def ModuleManager.mainTrace (mm : ModuleManager) : List HookCall :=
  mm.initTrace ++ mm.runTrace ++ mm.finalizeTrace

/-- Phase/event precedence on hook calls: `init` before everything, runs
ordered by event number, `finalize` after everything. -/
def HookCall.le : HookCall → HookCall → Prop
  | .init _, _ => True
  | .run _ _, .init _ => False
  | .run e _, .run e' _ => e ≤ e'
  | .run _ _, .finalize _ => True
  | .finalize _, .finalize _ => True
  | .finalize _, .init _ => False
  | .finalize _, .run _ _ => False

def HookCall.isInit : HookCall → Bool
  | .init _ => true
  | _ => false

def HookCall.isRunAt (e : Nat) : HookCall → Bool
  | .run e' _ => e' == e
  | _ => false

def HookCall.isFinalize : HookCall → Bool
  | .finalize _ => true
  | _ => false

theorem pairwise_of_forall {α : Type} {R : α → α → Prop}
    (h : ∀ a b : α, R a b) : ∀ l : List α, l.Pairwise R
  | [] => List.Pairwise.nil
  | a :: t => List.Pairwise.cons (fun b _ => h a b) (pairwise_of_forall h t)

theorem mem_runEvents {modules : List Nat} {n : Nat} {a : HookCall}
    (h : a ∈ runEvents modules n) :
    ∃ e m, a = HookCall.run e m ∧ e < n ∧ m ∈ modules := by
  simp only [runEvents, List.mem_flatMap, List.mem_range, runEvent,
    List.mem_map] at h
  obtain ⟨e, he, m, hm, rfl⟩ := h
  exact ⟨e, m, rfl, he, hm⟩

theorem runEvents_succ (modules : List Nat) (n : Nat) :
    runEvents modules (n + 1) = runEvents modules n ++ runEvent modules n := by
  simp [runEvents, List.range_succ]

theorem pairwise_runEvents (modules : List Nat) :
    ∀ n : Nat, (runEvents modules n).Pairwise HookCall.le := by
  intro n
  induction n with
  | zero => simp [runEvents]
  | succ k ih =>
      rw [runEvents_succ, List.pairwise_append]
      refine ⟨ih, ?_, ?_⟩
      · rw [runEvent, List.pairwise_map]
        exact pairwise_of_forall (fun a b => Nat.le_refl k) _
      · intro a ha b hb
        obtain ⟨e, m, rfl, he, _⟩ := mem_runEvents ha
        simp only [runEvent, List.mem_map] at hb
        obtain ⟨m', _, rfl⟩ := hb
        exact Nat.le_of_lt he

theorem filter_isInit_runEvents (modules : List Nat) (n : Nat) :
    (runEvents modules n).filter HookCall.isInit = [] := by
  rw [List.filter_eq_nil_iff]
  intro a ha
  obtain ⟨e, m, rfl, _, _⟩ := mem_runEvents ha
  simp [HookCall.isInit]

theorem filter_isFinalize_runEvents (modules : List Nat) (n : Nat) :
    (runEvents modules n).filter HookCall.isFinalize = [] := by
  rw [List.filter_eq_nil_iff]
  intro a ha
  obtain ⟨e, m, rfl, _, _⟩ := mem_runEvents ha
  simp [HookCall.isFinalize]

theorem filter_isRunAt_runEvent_self (modules : List Nat) (e : Nat) :
    (runEvent modules e).filter (HookCall.isRunAt e) = runEvent modules e := by
  rw [List.filter_eq_self]
  intro a ha
  simp only [runEvent, List.mem_map] at ha
  obtain ⟨m, _, rfl⟩ := ha
  simp [HookCall.isRunAt]

theorem filter_isRunAt_runEvent_ne (modules : List Nat) {e e' : Nat}
    (h : e' ≠ e) :
    (runEvent modules e').filter (HookCall.isRunAt e) = [] := by
  rw [List.filter_eq_nil_iff]
  intro a ha
  simp only [runEvent, List.mem_map] at ha
  obtain ⟨m, _, rfl⟩ := ha
  simp [HookCall.isRunAt, h]

theorem filter_isRunAt_runEvents {modules : List Nat} {n e : Nat}
    (h : e < n) :
    (runEvents modules n).filter (HookCall.isRunAt e) = runEvent modules e := by
  induction n with
  | zero => omega
  | succ k ih =>
      rw [runEvents_succ, List.filter_append]
      by_cases hk : e = k
      · subst hk
        have h0 : (runEvents modules e).filter (HookCall.isRunAt e) = [] := by
          rw [List.filter_eq_nil_iff]
          intro a ha
          obtain ⟨e', m, rfl, he', _⟩ := mem_runEvents ha
          simp only [HookCall.isRunAt, beq_iff_eq]
          omega
        rw [h0, filter_isRunAt_runEvent_self]
        simp
      · rw [ih (by omega), filter_isRunAt_runEvent_ne modules (by omega)]
        simp

theorem count_run_runEvent_self (modules : List Nat) (e m : Nat) :
    (runEvent modules e).count (HookCall.run e m) = modules.count m := by
  induction modules with
  | nil => rfl
  | cons a t ih =>
      simp only [runEvent, List.map_cons, List.count_cons] at *
      rw [ih]
      by_cases hm : a = m
      · subst hm; simp
      · simp [hm]

theorem count_run_runEvent_ne (modules : List Nat) {e e' m : Nat}
    (h : e' ≠ e) :
    (runEvent modules e').count (HookCall.run e m) = 0 := by
  refine List.count_eq_zero_of_not_mem (fun hmem => ?_)
  simp only [runEvent, List.mem_map] at hmem
  obtain ⟨x, _, heq⟩ := hmem
  injection heq with h1 h2
  exact h h1

theorem count_run_runEvents {modules : List Nat} {n e m : Nat}
    (hnd : modules.Nodup) (he : e < n) (hm : m ∈ modules) :
    (runEvents modules n).count (HookCall.run e m) = 1 := by
  induction n with
  | zero => omega
  | succ k ih =>
      rw [runEvents_succ, List.count_append]
      by_cases hk : e = k
      · subst hk
        have h0 : (runEvents modules e).count (HookCall.run e m) = 0 := by
          refine List.count_eq_zero_of_not_mem (fun hmem => ?_)
          obtain ⟨e', m', heq, he', _⟩ := mem_runEvents hmem
          injection heq with h1 h2
          omega
        rw [h0, count_run_runEvent_self, List.count_eq_one_of_mem hnd hm]
      · rw [ih (by omega), count_run_runEvent_ne modules (by omega)]

/-- C3: lifecycle hooks execute in the strict global order.  The full driver
trace is ordered by phase and event (`Pairwise HookCall.le`): every `init`
precedes every `run`, event `i`'s runs all precede event `i+1`'s, and every
`finalize` follows everything.  The `init` and `finalize` invocations are
exactly the instances in registry order; each event `e < N` invokes exactly
the instances in registry order (so event iterations never interleave), and
each live instance's `run` happens exactly once per event. -/
theorem lifecycle_global_order (mm : ModuleManager) :
    mm.mainTrace.Pairwise HookCall.le ∧
    mm.mainTrace.filter HookCall.isInit = mm.modules.map HookCall.init ∧
    (∀ e, e < mm.numberOfEvents →
      mm.mainTrace.filter (HookCall.isRunAt e) = runEvent mm.modules e) ∧
    mm.mainTrace.filter HookCall.isFinalize = mm.modules.map HookCall.finalize ∧
    (mm.modules.Nodup → ∀ e m, e < mm.numberOfEvents → m ∈ mm.modules →
      mm.mainTrace.count (HookCall.run e m) = 1) := by
  have hInitSelf : (mm.modules.map HookCall.init).filter HookCall.isInit =
      mm.modules.map HookCall.init := by
    rw [List.filter_eq_self]
    intro a ha
    obtain ⟨m, _, rfl⟩ := List.mem_map.mp ha
    rfl
  have hFinSelf : (mm.modules.map HookCall.finalize).filter
      HookCall.isFinalize = mm.modules.map HookCall.finalize := by
    rw [List.filter_eq_self]
    intro a ha
    obtain ⟨m, _, rfl⟩ := List.mem_map.mp ha
    rfl
  have hInitFin : (mm.modules.map HookCall.finalize).filter
      HookCall.isInit = [] := by
    rw [List.filter_eq_nil_iff]
    intro a ha
    obtain ⟨m, _, rfl⟩ := List.mem_map.mp ha
    simp [HookCall.isInit]
  have hFinInit : (mm.modules.map HookCall.init).filter
      HookCall.isFinalize = [] := by
    rw [List.filter_eq_nil_iff]
    intro a ha
    obtain ⟨m, _, rfl⟩ := List.mem_map.mp ha
    simp [HookCall.isFinalize]
  have hRunInit : ∀ e, (mm.modules.map HookCall.init).filter
      (HookCall.isRunAt e) = [] := by
    intro e
    rw [List.filter_eq_nil_iff]
    intro a ha
    obtain ⟨m, _, rfl⟩ := List.mem_map.mp ha
    simp [HookCall.isRunAt]
  have hRunFin : ∀ e, (mm.modules.map HookCall.finalize).filter
      (HookCall.isRunAt e) = [] := by
    intro e
    rw [List.filter_eq_nil_iff]
    intro a ha
    obtain ⟨m, _, rfl⟩ := List.mem_map.mp ha
    simp [HookCall.isRunAt]
  refine ⟨?_, ?_, ?_, ?_, ?_⟩
  · rw [ModuleManager.mainTrace, List.pairwise_append, List.pairwise_append]
    refine ⟨⟨?_, ?_, ?_⟩, ?_, ?_⟩
    · rw [ModuleManager.initTrace, List.pairwise_map]
      exact pairwise_of_forall (fun a b => trivial) _
    · exact pairwise_runEvents _ _
    · intro a ha b hb
      obtain ⟨m, _, rfl⟩ := List.mem_map.mp ha
      trivial
    · rw [ModuleManager.finalizeTrace, List.pairwise_map]
      exact pairwise_of_forall (fun a b => trivial) _
    · intro a ha b hb
      obtain ⟨m', _, rfl⟩ := List.mem_map.mp hb
      cases a <;> trivial
  · rw [ModuleManager.mainTrace, List.filter_append, List.filter_append]
    rw [ModuleManager.initTrace, ModuleManager.finalizeTrace,
      ModuleManager.runTrace, hInitSelf, hInitFin,
      filter_isInit_runEvents]
    simp
  · intro e he
    rw [ModuleManager.mainTrace, List.filter_append, List.filter_append]
    rw [ModuleManager.initTrace, ModuleManager.finalizeTrace,
      ModuleManager.runTrace, hRunInit, hRunFin,
      filter_isRunAt_runEvents he]
    simp
  · rw [ModuleManager.mainTrace, List.filter_append, List.filter_append]
    rw [ModuleManager.initTrace, ModuleManager.finalizeTrace,
      ModuleManager.runTrace, hFinSelf, hFinInit,
      filter_isFinalize_runEvents]
    simp
  · intro hnd e m he hm
    rw [ModuleManager.mainTrace, List.count_append, List.count_append]
    have h1 : (mm.initTrace).count (HookCall.run e m) = 0 := by
      refine List.count_eq_zero_of_not_mem (fun hmem => ?_)
      obtain ⟨m', _, heq⟩ := List.mem_map.mp hmem
      exact HookCall.noConfusion heq
    have h2 : (mm.finalizeTrace).count (HookCall.run e m) = 0 := by
      refine List.count_eq_zero_of_not_mem (fun hmem => ?_)
      obtain ⟨m', _, heq⟩ := List.mem_map.mp hmem
      exact HookCall.noConfusion heq
    rw [h1, h2, ModuleManager.runTrace, count_run_runEvents hnd he hm]

/-- Witness for C3 at a concrete manager: two instances and
`number_of_events = 2`. -/
theorem lifecycle_global_order_witness :
    (ModuleManager.mainTrace
        ⟨[10, 20], ⟨"global", none, none, [("number_of_events", 2)]⟩⟩).Pairwise
      HookCall.le ∧
    (ModuleManager.mainTrace
        ⟨[10, 20], ⟨"global", none, none, [("number_of_events", 2)]⟩⟩).filter
      (HookCall.isRunAt 1) = runEvent [10, 20] 1 ∧
    (ModuleManager.mainTrace
        ⟨[10, 20], ⟨"global", none, none, [("number_of_events", 2)]⟩⟩).count
      (HookCall.run 1 20) = 1 := by
  refine ⟨(lifecycle_global_order _).1, ?_, ?_⟩
  · exact (lifecycle_global_order _).2.2.1 1 (by decide)
  · exact (lifecycle_global_order _).2.2.2.2 (by decide) 1 20 (by decide)
      (by decide)

/-- C10: when the global configuration does not define `number_of_events`,
the run phase uses the default `1u` and executes exactly one event, invoking
every live instance's `run` hook exactly once, in registry order. -/
theorem default_event_count_single_run (mm : ModuleManager)
    (h : mm.global_config.intKeys.lookup "number_of_events" = none) :
    mm.runTrace = runEvent mm.modules 0 ∧
    (mm.modules.Nodup → ∀ m ∈ mm.modules,
      mm.runTrace.count (HookCall.run 0 m) = 1) := by
  have hn : mm.numberOfEvents = 1 := by
    simp [ModuleManager.numberOfEvents, Configuration.get, h]
  constructor
  · rw [ModuleManager.runTrace, hn, runEvents_succ]
    simp [runEvents]
  · intro hnd m hm
    rw [ModuleManager.runTrace, hn]
    exact count_run_runEvents hnd (by omega) hm

/-! ## Logging section state around lifecycle hooks -/

instance {ε α : Type} [DecidableEq ε] [DecidableEq α] :
    DecidableEq (Except ε α) := fun a b =>
  match a, b with
  | .error e₁, .error e₂ =>
      if h : e₁ = e₂ then .isTrue (by rw [h])
      else .isFalse (fun hh => h (by cases hh; rfl))
  | .ok x, .ok y =>
      if h : x = y then .isTrue (by rw [h])
      else .isFalse (fun hh => h (by cases hh; rfl))
  | .error _, .ok _ => .isFalse (fun hh => Except.noConfusion hh)
  | .ok _, .error _ => .isFalse (fun hh => Except.noConfusion hh)

/-- A module instance as the lifecycle drivers see it: its identifier name
(`module_to_id_.at(mod.get()).getName()`) and the behaviour of its three
hooks — normal return or a thrown error (hooks are opaque plugin code). -/
structure LifecycleModule where
  name : String
  initResult : Except String Unit
  runResult : Except String Unit
  finalizeResult : Except String Unit
deriving DecidableEq, Repr

/-- One hook invocation as performed by ModuleManager.cpp lines 23-31 (and
identically at 43-51 and 60-68).  `Log::getSection`/`Log::setSection`
(log.h, not among the sources) read and write a global section string,
modelled as explicit state.  The driver saves the old section, sets the
module-identifying one and calls the hook; on normal return it executes
`Log::setSection(old_section_name)`, restoring the incoming state; a thrown
error propagates before that restore runs, leaving the state at the
module's section. -/
def invokeWithSection (sectionName : String) (hook : Except String Unit)
    (logSection : String) : Except String Unit × String :=
  let old_section_name := logSection
  match hook with
  | .ok () => (.ok (), old_section_name)
  | .error e => (.error e, sectionName)

/-- A lifecycle phase loop (`ModuleManager::init/run/finalize` all have this
shape): iterate the instances in registry order, invoking the selected hook
with the tagged section header (`"I:"`, `"R:"` or `"F:"` plus the module
name); a thrown error aborts the phase immediately. -/
def phaseLoop (tag : String) (hookOf : LifecycleModule → Except String Unit) :
    List LifecycleModule → String → Except String Unit × String
  | [], st => (.ok (), st)
  | m :: ms, st =>
      match invokeWithSection (tag ++ m.name) (hookOf m) st with
      | (.ok _, st') => phaseLoop tag hookOf ms st'
      | (.error e, st') => (.error e, st')

/-- The `ModuleManager::init` loop (lines 20-33). -/
def initPhase : List LifecycleModule → String → Except String Unit × String :=
  phaseLoop "I:" LifecycleModule.initResult

/-- One event of the `ModuleManager::run` loop (lines 42-52). -/
def runPhaseOnce :
    List LifecycleModule → String → Except String Unit × String :=
  phaseLoop "R:" LifecycleModule.runResult

/-- The `ModuleManager::finalize` loop (lines 57-70). -/
def finalizePhase :
    List LifecycleModule → String → Except String Unit × String :=
  phaseLoop "F:" LifecycleModule.finalizeResult

/-- Counterexample to C7 as stated: a single module whose `init` hook throws.
The driver set the section to `"I:A"` and the restore to the previous
section `"S0"` never executes — the code has no try/finally around
`mod->init()`, so the pre-call logging section is NOT restored when the hook
throws; the error propagates with the section left at `"I:A"`. -/
theorem log_section_restore_counterexample :
    initPhase [⟨"A", .error "boom", .ok (), .ok ()⟩] "S0" =
      (.error "boom", "I:A") ∧ "I:A" ≠ "S0" := by
  exact ⟨rfl, by decide⟩

/-- C7 (amended): for every lifecycle phase, the driver sets the
module-identifying logging section before each hook and restores the
previous section when the hook returns normally — a phase whose hooks all
return normally leaves the logging section exactly as it found it.  When a
hook throws, the restore is skipped: the phase returns the error with the
logging section still set to the failing module's tagged section. -/
theorem log_section_restored_amended (tag : String)
    (hookOf : LifecycleModule → Except String Unit)
    (ms : List LifecycleModule) (st : String) :
    ((∀ m ∈ ms, hookOf m = .ok ()) →
      phaseLoop tag hookOf ms st = (.ok (), st)) ∧
    (∀ pre m rest e, ms = pre ++ m :: rest →
      (∀ m' ∈ pre, hookOf m' = .ok ()) → hookOf m = .error e →
      phaseLoop tag hookOf ms st = (.error e, tag ++ m.name)) := by
  constructor
  · intro hall
    induction ms with
    | nil => rfl
    | cons a t ih =>
        have ha : hookOf a = .ok () := hall a (by simp)
        simp only [phaseLoop, invokeWithSection, ha]
        exact ih (fun m hm => hall m (by simp [hm]))
  · intro pre
    induction pre generalizing ms st with
    | nil =>
        intro m rest e hms _ hm
        subst hms
        simp only [phaseLoop, invokeWithSection, hm]
    | cons a t ih =>
        intro m rest e hms hpre hm
        subst hms
        have ha : hookOf a = .ok () := hpre a (by simp)
        simp only [List.cons_append, phaseLoop, invokeWithSection, ha]
        exact ih _ st m rest e rfl (fun m' hm' => hpre m' (by simp [hm'])) hm

/-- Witness for the amended C7: a fully successful phase restores the
section; a phase with a failing second module leaves its tagged section. -/
theorem log_section_restored_amended_witness :
    initPhase [⟨"A", .ok (), .ok (), .ok ()⟩] "S0" = (.ok (), "S0") ∧
    initPhase [⟨"A", .ok (), .ok (), .ok ()⟩,
               ⟨"B", .error "x", .ok (), .ok ()⟩] "S0" =
      (.error "x", "I:B") := by
  constructor
  · exact (log_section_restored_amended "I:" LifecycleModule.initResult
      [⟨"A", .ok (), .ok (), .ok ()⟩] "S0").1 (by decide)
  · exact (log_section_restored_amended "I:" LifecycleModule.initResult
      [⟨"A", .ok (), .ok (), .ok ()⟩, ⟨"B", .error "x", .ok (), .ok ()⟩]
      "S0").2 [⟨"A", .ok (), .ok (), .ok ()⟩]
      ⟨"B", .error "x", .ok (), .ok ()⟩ [] "x" (by decide) (by decide)
      (by decide)

/-- Witness for C10 at a concrete manager with no `number_of_events` key. -/
theorem default_event_count_single_run_witness :
    ModuleManager.runTrace ⟨[5], ⟨"global", none, none, []⟩⟩ =
      runEvent [5] 0 ∧
    (ModuleManager.runTrace ⟨[5], ⟨"global", none, none, []⟩⟩).count
      (HookCall.run 0 5) = 1 :=
  ⟨(default_event_count_single_run ⟨[5], ⟨"global", none, none, []⟩⟩ rfl).1,
   (default_event_count_single_run ⟨[5], ⟨"global", none, none, []⟩⟩ rfl).2
     (by decide) 5 (by decide)⟩

/-! ## Message bus -/

/-- Message configuration flags.  Modelled from the spec (delegates.h is not
among the sources): `ALLOW_OVERWRITE` lets a single-slot delegate receive
more than one message per event. -/
structure MsgFlags where
  allow_overwrite : Bool
deriving DecidableEq, Repr

/-- Errors of the delivery-count policy. -/
inductive DispatchError where
  | doubleDelivery
deriving DecidableEq, Repr

/-- Modelled from the spec: the per-event state of the delegate created by
`Messenger::bindSingle` (declared at Messenger.hpp lines 67-76, whose doc
comment warns "This allows to only receive a single message of the type per
run unless the ALLOW_OVERWRITE flag is passed"; the implementation is not
among the sources).  The slot is `none` at the start of each event; message
payloads are opaque. -/
structure SingleBindDelegate where
  flags : MsgFlags
  slot : Option Nat
deriving DecidableEq, Repr

/-- Modelled from the spec: delivery into a single-slot delegate — "For
single-slot delegates without `ALLOW_OVERWRITE`, fail with
`DoubleDeliveryError` if a value was already set for the current event;
`ALLOW_OVERWRITE` delegates simply replace." -/
def SingleBindDelegate.deliver (d : SingleBindDelegate) (payload : Nat) :
    Except DispatchError SingleBindDelegate :=
  if d.slot.isSome && !d.flags.allow_overwrite then
    .error .doubleDelivery
  else
    .ok { d with slot := some payload }

/-- C4: within one event, a single-slot delegate without `ALLOW_OVERWRITE`
accepts the first matching dispatch and fails the second with
`DoubleDeliveryError`; with `ALLOW_OVERWRITE` both succeed and the slot
retains the latest value. -/
theorem single_slot_delivery_policy (v₁ v₂ : Nat) :
    SingleBindDelegate.deliver ⟨⟨false⟩, none⟩ v₁ =
      .ok ⟨⟨false⟩, some v₁⟩ ∧
    SingleBindDelegate.deliver ⟨⟨false⟩, some v₁⟩ v₂ =
      .error .doubleDelivery ∧
    SingleBindDelegate.deliver ⟨⟨true⟩, none⟩ v₁ =
      .ok ⟨⟨true⟩, some v₁⟩ ∧
    SingleBindDelegate.deliver ⟨⟨true⟩, some v₁⟩ v₂ =
      .ok ⟨⟨true⟩, some v₂⟩ :=
  ⟨rfl, rfl, rfl, rfl⟩

/-- Modelled from the spec: a registered delegate as the dispatch algorithm
sees it — the payload type it listens to (the `std::type_index` key of
`DelegateMap`, Messenger.hpp line 126, modelled as a string tag), its target
scope (`""` is the wildcard), and an opaque registration identity. -/
structure Delegate where
  msgType : String
  scope : String
  ident : Nat
deriving DecidableEq, Repr

/-- Modelled from the spec: a dispatched message — its runtime payload type
tag and its optional target scope. -/
structure BaseMessage where
  msgType : String
  scope : Option String
deriving DecidableEq, Repr

/-- Modelled from the spec: the matching rule of `dispatch_message`
(Messenger.cpp is not among the sources) — "Look up the bucket keyed by the
message's runtime type tag.  Within that bucket, gather delegates matching
either the wildcard scope (`""`, matches any target) or the message's own
target scope if it carries one." -/
def delegateMatches (msg : BaseMessage) (d : Delegate) : Bool :=
  d.msgType == msg.msgType &&
    (d.scope == "" ||
      match msg.scope with
      | some s => d.scope == s
      | none => false)

/-- Modelled from the spec: the delegates `dispatch_message` delivers to, in
registration order. -/
def dispatch_message (delegates : List Delegate) (msg : BaseMessage) :
    List Delegate :=
  delegates.filter (delegateMatches msg)

/-- C6: a message with no target scope is delivered exactly to the
wildcard-scoped delegates registered for its type (and to no named-scope
delegate); a message with target scope `x` is delivered exactly to the
wildcard delegates and the delegates scoped to `x` for its type — never to a
delegate of another scope or another type. -/
theorem dispatch_scope_matching (delegates : List Delegate)
    (msg : BaseMessage) (d : Delegate) :
    (msg.scope = none →
      (d ∈ dispatch_message delegates msg ↔
        d ∈ delegates ∧ d.msgType = msg.msgType ∧ d.scope = "")) ∧
    (∀ x, msg.scope = some x →
      (d ∈ dispatch_message delegates msg ↔
        d ∈ delegates ∧ d.msgType = msg.msgType ∧
          (d.scope = "" ∨ d.scope = x))) := by
  constructor
  · intro h
    simp [dispatch_message, List.mem_filter, delegateMatches, h, and_assoc]
  · intro x h
    simp [dispatch_message, List.mem_filter, delegateMatches, h, and_assoc]

/-- Witness for C6 at a concrete delegate table and scoped message. -/
theorem dispatch_scope_matching_witness :
    (⟨"T", "", 1⟩ : Delegate) ∈
        dispatch_message
          [⟨"T", "", 1⟩, ⟨"T", "X", 2⟩, ⟨"T", "Y", 3⟩, ⟨"U", "", 4⟩]
          ⟨"T", some "X"⟩ ↔
      (⟨"T", "", 1⟩ : Delegate) ∈
          ([⟨"T", "", 1⟩, ⟨"T", "X", 2⟩, ⟨"T", "Y", 3⟩,
            ⟨"U", "", 4⟩] : List Delegate) ∧
        "T" = "T" ∧ ("" = "" ∨ "" = "X") :=
  (dispatch_scope_matching
      [⟨"T", "", 1⟩, ⟨"T", "X", 2⟩, ⟨"T", "Y", 3⟩, ⟨"U", "", 4⟩]
      ⟨"T", some "X"⟩ ⟨"T", "", 1⟩).2 "X" rfl

/-! ## Dynamic library loading -/

/-- The dynamic-loader environment: `dlopen` resolves a library file to a
handle or fails (returns null).  Handles are opaque. -/
structure DynamicLoader where
  dlopen : String → Option Nat

/-- The library naming convention of ModuleManager.cpp line 93:
`libAllpixModule` + section name + `SHARED_LIBRARY_SUFFIX` (the platform
suffix is modelled as `.so`). -/
def libraryName (confName : String) : String :=
  "libAllpixModule" ++ confName ++ ".so"

/-- The library-loading step of `ModuleManager::load` (lines 93-113): when
the `loadedLibraries_` cache has no entry for the library name, call
`dlopen`, failing with `DynamicLibraryError` when it returns null and
caching the handle otherwise; a cached library is reused without reopening.
The third result component records the `dlopen` calls performed by this
step.  Nothing ever removes a cache entry. -/
def load_library (os : DynamicLoader)
    (loadedLibraries : List (String × Nat)) (confName : String) :
    Except LoadError (Nat × List (String × Nat) × List String) :=
  match loadedLibraries.lookup (libraryName confName) with
  | some handle => .ok (handle, loadedLibraries, [])
  | none =>
      match os.dlopen (libraryName confName) with
      | none => .error (.dynamicLibrary confName)
      | some handle =>
          .ok (handle, loadedLibraries ++ [(libraryName confName, handle)],
            [libraryName confName])

theorem lookup_append_some {l₁ l₂ : List (String × Nat)} {k : String}
    {v : Nat} (h : l₁.lookup k = some v) : (l₁ ++ l₂).lookup k = some v := by
  induction l₁ with
  | nil => simp [List.lookup] at h
  | cons a t ih =>
      rw [List.cons_append]
      by_cases hk : k == a.1
      · simp only [List.lookup, hk] at h ⊢
        exact h
      · simp only [Bool.not_eq_true] at hk
        simp only [List.lookup, hk] at h ⊢
        exact ih h

theorem lookup_append_none {l₁ l₂ : List (String × Nat)} {k : String}
    (h : l₁.lookup k = none) : (l₁ ++ l₂).lookup k = l₂.lookup k := by
  induction l₁ with
  | nil => rfl
  | cons a t ih =>
      rw [List.cons_append]
      by_cases hk : k == a.1
      · simp only [List.lookup, hk] at h
        exact absurd h (by simp)
      · simp only [Bool.not_eq_true] at hk
        simp only [List.lookup, hk] at h ⊢
        exact ih h

/-- C8: plugin library loading is idempotent per name.  A successful load
leaves the handle cached under the library name; a repeated load of the same
name returns the very same handle with the cache unchanged and performs no
`dlopen` call; and no cache entry is ever removed by a load (libraries are
never unloaded). -/
theorem load_library_idempotent (os : DynamicLoader)
    (st : List (String × Nat)) (confName : String) (handle : Nat)
    (st' : List (String × Nat)) (opened : List String)
    (h : load_library os st confName = .ok (handle, st', opened)) :
    st'.lookup (libraryName confName) = some handle ∧
    load_library os st' confName = .ok (handle, st', []) ∧
    (∀ k v, st.lookup k = some v → st'.lookup k = some v) := by
  unfold load_library at h
  cases hl : st.lookup (libraryName confName) with
  | some h0 =>
      rw [hl] at h
      simp only [Except.ok.injEq, Prod.mk.injEq] at h
      obtain ⟨rfl, rfl, rfl⟩ := h
      refine ⟨hl, ?_, fun k v hv => hv⟩
      unfold load_library
      rw [hl]
  | none =>
      rw [hl] at h
      cases hd : os.dlopen (libraryName confName) with
      | none =>
          rw [hd] at h
          exact absurd h (by simp)
      | some h1 =>
          rw [hd] at h
          simp only [Except.ok.injEq, Prod.mk.injEq] at h
          obtain ⟨heq, hst, hop⟩ := h
          have hlk : (st ++ [(libraryName confName, h1)]).lookup
              (libraryName confName) = some h1 := by
            rw [lookup_append_none hl]
            simp [List.lookup]
          rw [← heq, ← hst]
          refine ⟨hlk, ?_, fun k v hv => lookup_append_some hv⟩
          unfold load_library
          rw [hlk]

/-- Witness for C8: a first load opens and caches, and the theorem's
conclusions hold of it. -/
theorem load_library_idempotent_witness :
    ([("libAllpixModuleTest.so", 7)] : List (String × Nat)).lookup
        (libraryName "Test") = some 7 ∧
    load_library ⟨fun _ => some 7⟩ [("libAllpixModuleTest.so", 7)] "Test" =
      .ok (7, [("libAllpixModuleTest.so", 7)], []) ∧
    (∀ k v, ([] : List (String × Nat)).lookup k = some v →
      ([("libAllpixModuleTest.so", 7)] : List (String × Nat)).lookup k =
        some v) :=
  load_library_idempotent ⟨fun _ => some 7⟩ [] "Test" 7
    [("libAllpixModuleTest.so", 7)] ["libAllpixModuleTest.so"] rfl

/-! ## Per-detector instantiation -/

/-- ModuleManager::check_module_detector (lines 277-283): verify that the
produced module forwarded the provided detector to the base `Module`
constructor.  The C++ compares the stored detector pointer with the provided
one; detector identity is modelled by value. -/
def check_module_detector (module_name : String) (module : Module)
    (detector : Detector) : Except LoadError Unit :=
  if module.detector = some detector then
    .ok ()
  else
    .error (.invalidModuleState
      ("Module " ++ module_name ++
        " does not call the correct base Module constructor: the provided detector should be forwarded"))

/-- Geometry lookup of a detector by name.  Modelled from the spec
(`GeometryManager::getDetector`, not among the sources): targets are
globally known named sub-entities. -/
def getDetector (geo : List Detector) (name : String) : Option Detector :=
  geo.find? (fun d => d.name == name)

/-- Geometry lookup of all detectors of a type.  Modelled from the spec
(`GeometryManager::getDetectorsByType`, not among the sources). -/
def getDetectorsByType (geo : List Detector) (t : String) : List Detector :=
  geo.filter (fun d => d.type == t)

/-- The `name` block of `ModuleManager::createModulesPerDetector` (lines
215-231): one instance per listed detector name, priority 1, each checked
with `check_module_detector`; the lookup of an unknown detector name is
modelled as a failure. -/
def createNamed (moduleName : String) (conf : Configuration)
    (geo : List Detector) (gen : Configuration → Detector → Module) :
    List String → Except LoadError (List Entry)
  | [] => .ok []
  | n :: ns =>
      match getDetector geo n with
      | none => .error (.invalidDetector n)
      | some det =>
          match check_module_detector moduleName (gen conf det) det with
          | .error e => .error e
          | .ok () =>
              match createNamed moduleName conf geo gen ns with
              | .error e => .error e
              | .ok rest =>
                  .ok ((⟨moduleName, det.name, 1⟩, gen conf det) :: rest)

/-- The inner detector loop of the `type` block (lines 239-253): skip every
detector already claimed by the `name` list (`moduleNames`), otherwise
instantiate with priority 2 and check. -/
def createTypedDets (moduleName : String) (conf : Configuration)
    (gen : Configuration → Detector → Module) (claimed : List String) :
    List Detector → Except LoadError (List Entry)
  | [] => .ok []
  | det :: ds =>
      if claimed.contains det.name then
        createTypedDets moduleName conf gen claimed ds
      else
        match check_module_detector moduleName (gen conf det) det with
        | .error e => .error e
        | .ok () =>
            match createTypedDets moduleName conf gen claimed ds with
            | .error e => .error e
            | .ok rest =>
                .ok ((⟨moduleName, det.name, 2⟩, gen conf det) :: rest)

/-- The `type` block (lines 234-255): for each listed type, all geometry
detectors of that type, excluding the name-claimed ones. -/
def createTyped (moduleName : String) (conf : Configuration)
    (geo : List Detector) (gen : Configuration → Detector → Module)
    (claimed : List String) :
    List String → Except LoadError (List Entry)
  | [] => .ok []
  | t :: ts =>
      match createTypedDets moduleName conf gen claimed
          (getDetectorsByType geo t) with
      | .error e => .error e
      | .ok l =>
          match createTyped moduleName conf geo gen claimed ts with
          | .error e => .error e
          | .ok rest => .ok (l ++ rest)

/-- The fallback block (lines 258-272): neither `name` nor `type` present —
one instance per known detector, priority 0. -/
def createDefault (moduleName : String) (conf : Configuration)
    (gen : Configuration → Detector → Module) :
    List Detector → Except LoadError (List Entry)
  | [] => .ok []
  | det :: ds =>
      match check_module_detector moduleName (gen conf det) det with
      | .error e => .error e
      | .ok () =>
          match createDefault moduleName conf gen ds with
          | .error e => .error e
          | .ok rest => .ok ((⟨moduleName, det.name, 0⟩, gen conf det) :: rest)

/-- ModuleManager::createModulesPerDetector (lines 195-275): names first
with priority 1, then non-claimed typed detectors with priority 2, and all
detectors with priority 0 when neither key is present.  `moduleNames`, the
set of claimed names, is the `name` array (empty when absent). -/
def createModulesPerDetector (conf : Configuration) (geo : List Detector)
    (gen : Configuration → Detector → Module) :
    Except LoadError (List Entry) :=
  match (match conf.nameKey with
         | some names => createNamed conf.name conf geo gen names
         | none => .ok []) with
  | .error e => .error e
  | .ok namedL =>
      match (match conf.typeKey with
             | some types =>
                 createTyped conf.name conf geo gen (conf.nameKey.getD [])
                   types
             | none => .ok []) with
      | .error e => .error e
      | .ok typedL =>
          if conf.nameKey.isNone && conf.typeKey.isNone then
            match createDefault conf.name conf gen geo with
            | .error e => .error e
            | .ok dfltL => .ok (namedL ++ typedL ++ dfltL)
          else
            .ok (namedL ++ typedL)

/-- ModuleManager::createModules (lines 167-192): a unique module — exactly
one instance with empty target and priority 0, built by the plugin's
`generator` entry point. -/
def createModules (conf : Configuration) (gen : Configuration → Module) :
    List Entry :=
  [(⟨conf.name, "", 0⟩, gen conf)]

/-- Detector names produced by the `type` expansion: for each listed type,
the names of the detectors of that type not claimed by the `name` list. -/
def typedTargets (geo : List Detector) (claimed : List String)
    (types : List String) : List String :=
  types.flatMap (fun t =>
    ((getDetectorsByType geo t).filter
        (fun d => !(claimed.contains d.name))).map Detector.name)

theorem createNamed_image (moduleName : String) (conf : Configuration)
    (geo : List Detector) (gen : Configuration → Detector → Module) :
    ∀ (names : List String) (l : List Entry),
      createNamed moduleName conf geo gen names = .ok l →
      l.map (fun e => e.1.target) = names ∧ ∀ e ∈ l, e.1.priority = 1 := by
  intro names
  induction names with
  | nil =>
      intro l h
      simp only [createNamed, Except.ok.injEq] at h
      subst h
      exact ⟨rfl, by simp⟩
  | cons n ns ih =>
      intro l h
      cases hg : getDetector geo n with
      | none => simp [createNamed, hg] at h
      | some det =>
          cases hc : check_module_detector moduleName (gen conf det) det with
          | error e => simp [createNamed, hg, hc] at h
          | ok u =>
              cases u
              cases hr : createNamed moduleName conf geo gen ns with
              | error e => simp [createNamed, hg, hc, hr] at h
              | ok rest =>
                  simp only [createNamed, hg, hc, hr, Except.ok.injEq] at h
                  subst h
                  have hg' : geo.find? (fun d => d.name == n) = some det := hg
                  have hdet : det.name = n := by
                    simpa [beq_iff_eq] using List.find?_some hg'
                  obtain ⟨hm, hp⟩ := ih rest hr
                  refine ⟨by simp [hm, hdet], ?_⟩
                  intro e he
                  rcases List.mem_cons.mp he with rfl | he'
                  · rfl
                  · exact hp e he'

theorem createTypedDets_image (moduleName : String) (conf : Configuration)
    (gen : Configuration → Detector → Module) (claimed : List String) :
    ∀ (ds : List Detector) (l : List Entry),
      createTypedDets moduleName conf gen claimed ds = .ok l →
      l.map (fun e => e.1.target) =
        (ds.filter (fun d => !(claimed.contains d.name))).map Detector.name ∧
      ∀ e ∈ l, e.1.priority = 2 := by
  intro ds
  induction ds with
  | nil =>
      intro l h
      simp only [createTypedDets, Except.ok.injEq] at h
      subst h
      exact ⟨rfl, by simp⟩
  | cons det t ih =>
      intro l h
      by_cases hcl : claimed.contains det.name
      · rw [createTypedDets, if_pos hcl] at h
        obtain ⟨hm, hp⟩ := ih l h
        refine ⟨?_, hp⟩
        rw [hm, List.filter_cons_of_neg (by simpa using hcl)]
      · rw [createTypedDets, if_neg hcl] at h
        cases hc : check_module_detector moduleName (gen conf det) det with
        | error e => rw [hc] at h; exact absurd h (by simp)
        | ok u =>
            cases u
            rw [hc] at h
            cases hr : createTypedDets moduleName conf gen claimed t with
            | error e => rw [hr] at h; exact absurd h (by simp)
            | ok rest =>
                rw [hr] at h
                simp only [Except.ok.injEq] at h
                subst h
                obtain ⟨hm, hp⟩ := ih rest hr
                refine ⟨?_, ?_⟩
                · rw [List.map_cons, hm,
                    List.filter_cons_of_pos (by simpa using hcl),
                    List.map_cons]
                · intro e he
                  rcases List.mem_cons.mp he with rfl | he'
                  · rfl
                  · exact hp e he'

theorem createTyped_image (moduleName : String) (conf : Configuration)
    (geo : List Detector) (gen : Configuration → Detector → Module)
    (claimed : List String) :
    ∀ (types : List String) (l : List Entry),
      createTyped moduleName conf geo gen claimed types = .ok l →
      l.map (fun e => e.1.target) = typedTargets geo claimed types ∧
      ∀ e ∈ l, e.1.priority = 2 := by
  intro types
  induction types with
  | nil =>
      intro l h
      simp only [createTyped, Except.ok.injEq] at h
      subst h
      exact ⟨by simp [typedTargets], by simp⟩
  | cons ty ts ih =>
      intro l h
      cases h1 : createTypedDets moduleName conf gen claimed
          (getDetectorsByType geo ty) with
      | error e => simp [createTyped, h1] at h
      | ok l₁ =>
          cases h2 : createTyped moduleName conf geo gen claimed ts with
          | error e => simp [createTyped, h1, h2] at h
          | ok rest =>
              simp only [createTyped, h1, h2, Except.ok.injEq] at h
              subst h
              obtain ⟨hm1, hp1⟩ := createTypedDets_image _ _ _ _ _ _ h1
              obtain ⟨hm2, hp2⟩ := ih rest h2
              refine ⟨?_, ?_⟩
              · rw [List.map_append, hm1, hm2]
                simp [typedTargets]
              · intro e he
                rcases List.mem_append.mp he with h' | h'
                · exact hp1 e h'
                · exact hp2 e h'

theorem mem_typedTargets {geo : List Detector} {claimed types : List String}
    {x : String} :
    x ∈ typedTargets geo claimed types ↔
      ∃ d ∈ geo, d.name = x ∧ d.type ∈ types ∧ x ∉ claimed := by
  constructor
  · intro hx
    simp only [typedTargets, List.mem_flatMap] at hx
    obtain ⟨t, ht, hx⟩ := hx
    simp only [List.mem_map] at hx
    obtain ⟨d, hd, rfl⟩ := hx
    simp only [List.mem_filter, getDetectorsByType] at hd
    obtain ⟨⟨hdg, hdt⟩, hnc⟩ := hd
    have hdt' : d.type = t := by simpa using hdt
    have hnc' : d.name ∉ claimed := by simpa using hnc
    exact ⟨d, hdg, rfl, hdt' ▸ ht, hnc'⟩
  · intro hx
    obtain ⟨d, hdg, rfl, hty, hnc⟩ := hx
    simp only [typedTargets, List.mem_flatMap]
    refine ⟨d.type, hty, ?_⟩
    simp only [List.mem_map]
    refine ⟨d, ?_, rfl⟩
    simp only [List.mem_filter, getDetectorsByType]
    exact ⟨⟨hdg, by simp⟩, by simpa using hnc⟩

theorem nodup_typedTargets {geo : List Detector} (claimed : List String)
    {types : List String} (hgeo : (geo.map Detector.name).Nodup)
    (htd : types.Nodup) :
    (typedTargets geo claimed types).Nodup := by
  induction types with
  | nil => simp [typedTargets]
  | cons ty ts ih =>
      rw [List.nodup_cons] at htd
      obtain ⟨hty, hts⟩ := htd
      have hchunk : (((getDetectorsByType geo ty).filter
          (fun d => !(claimed.contains d.name))).map Detector.name).Nodup := by
        refine hgeo.sublist (List.Sublist.map _ ?_)
        exact (List.filter_sublist _).trans (List.filter_sublist _)
      have hsplit : typedTargets geo claimed (ty :: ts) =
          ((getDetectorsByType geo ty).filter
              (fun d => !(claimed.contains d.name))).map Detector.name ++
            typedTargets geo claimed ts := by
        simp [typedTargets]
      rw [hsplit, List.nodup_append]
      refine ⟨hchunk, ih hts, ?_⟩
      intro x hx1 hx2
      simp only [List.mem_map, List.mem_filter, getDetectorsByType] at hx1
      obtain ⟨d, ⟨⟨hdg, hdt⟩, _⟩, rfl⟩ := hx1
      obtain ⟨d', hdg', hnm, hty', _⟩ := mem_typedTargets.mp hx2
      have hdd : d' = d := List.inj_on_of_nodup_map hgeo hdg' hdg hnm
      have : d.type = ty := by simpa using hdt
      rw [hdd, this] at hty'
      exact hty hty'

/-- C5 (amended): for a per-target section listing both `name` and `type`
arrays, provided the arrays have no duplicate entries and detector names are
unique, every target in the `name` list receives exactly one instance — the
priority-1 instance of the `name` entry — the `type` expansion skips every
name-claimed target (every priority-2 instance is bound outside the `name`
list), and no target receives two instances from the section. -/
theorem per_detector_name_type_exclusion (conf : Configuration)
    (geo : List Detector) (gen : Configuration → Detector → Module)
    (names types : List String) (L : List Entry)
    (hn : conf.nameKey = some names) (ht : conf.typeKey = some types)
    (hnd : names.Nodup) (htd : types.Nodup)
    (hgeo : (geo.map Detector.name).Nodup)
    (hok : createModulesPerDetector conf geo gen = .ok L) :
    (∀ t ∈ names,
      (L.map (fun e => e.1.target)).count t = 1 ∧
      ∀ e ∈ L, e.1.target = t → e.1.priority = 1) ∧
    (∀ e ∈ L, e.1.priority = 2 → e.1.target ∉ names) ∧
    (L.map (fun e => e.1.target)).Nodup := by
  simp only [createModulesPerDetector, hn, ht, Option.getD_some] at hok
  cases hN : createNamed conf.name conf geo gen names with
  | error e => rw [hN] at hok; exact absurd hok (by simp)
  | ok namedL =>
      simp only [hN] at hok
      cases hT : createTyped conf.name conf geo gen names types with
      | error e => rw [hT] at hok; exact absurd hok (by simp)
      | ok typedL =>
          simp only [hT] at hok
          rw [if_neg (by simp)] at hok
          simp only [Except.ok.injEq] at hok
          subst hok
          obtain ⟨hNm, hNp⟩ := createNamed_image _ _ _ _ _ _ hN
          obtain ⟨hTm, hTp⟩ := createTyped_image _ _ _ _ _ _ _ hT
          have hmap : (namedL ++ typedL).map (fun e => e.1.target) =
              names ++ typedTargets geo names types := by
            rw [List.map_append, hNm, hTm]
          refine ⟨?_, ?_, ?_⟩
          · intro t htm
            constructor
            · rw [hmap, List.count_append,
                List.count_eq_one_of_mem hnd htm,
                List.count_eq_zero_of_not_mem (fun hc => ?_)]
              obtain ⟨d, _, _, _, hnc⟩ := mem_typedTargets.mp hc
              exact hnc htm
            · intro e he het
              rcases List.mem_append.mp he with h' | h'
              · exact hNp e h'
              · exfalso
                have : e.1.target ∈ typedL.map (fun e => e.1.target) :=
                  List.mem_map_of_mem _ h'
                rw [hTm] at this
                obtain ⟨d, _, _, _, hnc⟩ := mem_typedTargets.mp this
                rw [het] at hnc
                exact hnc htm
          · intro e he hp
            rcases List.mem_append.mp he with h' | h'
            · rw [hNp e h'] at hp
              exact absurd hp (by omega)
            · have : e.1.target ∈ typedL.map (fun e => e.1.target) :=
                List.mem_map_of_mem _ h'
              rw [hTm] at this
              obtain ⟨d, _, _, _, hnc⟩ := mem_typedTargets.mp this
              exact hnc
          · rw [hmap, List.nodup_append]
            refine ⟨hnd, nodup_typedTargets names hgeo htd, ?_⟩
            intro x hx1 hx2
            obtain ⟨d, _, _, _, hnc⟩ := mem_typedTargets.mp hx2
            exact hnc hx1

/-- The instantiation list of the witness section for C5: `name = [D1]`,
`type = [T2]` over detectors `D1 : T1`, `D2 : T2`. -/
def c5Entries : List Entry :=
  [(⟨"B", "D1", 1⟩, Module.mk (some ⟨"D1", "T1"⟩)),
   (⟨"B", "D2", 2⟩, Module.mk (some ⟨"D2", "T2"⟩))]

/-- Witness for the amended C5 at the concrete section. -/
theorem per_detector_name_type_exclusion_witness :
    (∀ t ∈ ["D1"],
      (c5Entries.map (fun e => e.1.target)).count t = 1 ∧
      ∀ e ∈ c5Entries, e.1.target = t → e.1.priority = 1) ∧
    (∀ e ∈ c5Entries, e.1.priority = 2 → e.1.target ∉ ["D1"]) ∧
    (c5Entries.map (fun e => e.1.target)).Nodup :=
  per_detector_name_type_exclusion
    ⟨"B", some ["D1"], some ["T2"], []⟩
    [⟨"D1", "T1"⟩, ⟨"D2", "T2"⟩]
    (fun _ d => ⟨some d⟩) ["D1"] ["T2"] c5Entries
    rfl rfl (by decide) (by decide) (by decide) (by rfl)

/-- Counterexample to C5 as stated: with a duplicated `name` entry `D1`, the
name loop instantiates `D1` twice within the same section — target `D1` gets
two instances from the `name` entry (even though the `type` expansion
correctly skips it), so "each target named in the `name` list yields exactly
one instance" and "no target gets two instances from the same section" fail
as universal statements. -/
theorem per_detector_duplicate_counterexample :
    createModulesPerDetector
        ⟨"B", some ["D1", "D1"], some ["T2"], []⟩
        [⟨"D1", "T1"⟩, ⟨"D2", "T2"⟩]
        (fun _ d => ⟨some d⟩) =
      .ok [(⟨"B", "D1", 1⟩, Module.mk (some ⟨"D1", "T1"⟩)),
           (⟨"B", "D1", 1⟩, Module.mk (some ⟨"D1", "T1"⟩)),
           (⟨"B", "D2", 2⟩, Module.mk (some ⟨"D2", "T2"⟩))] ∧
    (([(⟨"B", "D1", 1⟩, Module.mk (some ⟨"D1", "T1"⟩)),
       (⟨"B", "D1", 1⟩, Module.mk (some ⟨"D1", "T1"⟩)),
       (⟨"B", "D2", 2⟩, Module.mk (some ⟨"D2", "T2"⟩))] : List Entry).map
        (fun e => e.1.target)).count "D1" = 2 :=
  ⟨rfl, rfl⟩

/-- C9: a per-target instance that does not report the detector it was asked
to bind to fails the check with the invalid-binding error
(`InvalidModuleStateException` in the source, `InvalidModuleBinding` in the
spec's taxonomy); an instance reporting the requested detector passes and no
error is raised. -/
theorem check_module_detector_spec (module_name : String) (module : Module)
    (detector : Detector) :
    (module.detector ≠ some detector →
      check_module_detector module_name module detector =
        .error (.invalidModuleState
          ("Module " ++ module_name ++
            " does not call the correct base Module constructor: the provided detector should be forwarded"))) ∧
    (module.detector = some detector →
      check_module_detector module_name module detector = .ok ()) := by
  constructor
  · intro h
    simp [check_module_detector, h]
  · intro h
    simp [check_module_detector, h]

/-- Witness for C9: a misbehaving instance fails, a correct one passes. -/
theorem check_module_detector_spec_witness :
    check_module_detector "M" ⟨none⟩ ⟨"D1", "T"⟩ =
      .error (.invalidModuleState
        ("Module " ++ "M" ++
          " does not call the correct base Module constructor: the provided detector should be forwarded")) ∧
    check_module_detector "M" ⟨some ⟨"D1", "T"⟩⟩ ⟨"D1", "T"⟩ = .ok () :=
  ⟨(check_module_detector_spec "M" ⟨none⟩ ⟨"D1", "T"⟩).1 (by decide),
   (check_module_detector_spec "M" ⟨some ⟨"D1", "T"⟩⟩ ⟨"D1", "T"⟩).2
     (by decide)⟩

end Allpix

